import Mathlib

/-!
Shallow embedding of the core of `CodeEditorLand/Air`:

* `src/Source/Fn/Job.rs` — the `Action` model, the lock-guarded `Work`
  queue (a `Vec<Action>` used as a stack via `push`/`pop`), and the
  dispatch loop `Fn`.
* `src/Source/Struct/Sequence/Plan/Formality.rs` — the function registry
  `Struct` with its two `DashMap`s (name to `Signature`, name to a
  type-erased asynchronous callable) and the operations `Sign`, `Add`,
  `Remove`.

Machine integers do not occur in the embedded code.  The lock on the
queue serializes operations, so queue behaviour is embedded as pure
state passing; the `DashMap`s are embedded as association lists with
replace-on-insert semantics; `async` callables are embedded by their
result value.
-/

namespace Air

/-- JSON values, embedding `serde_json::Value` (external collaborator):
null, booleans, numbers, strings, arrays and objects.  Objects keep
their fields as an ordered association list.  Numbers are embedded as
integers; no embedded datum serializes to a number. -/
inductive Json where
  | null : Json
  | bool (b : Bool) : Json
  | num (n : Int) : Json
  | str (s : String) : Json
  | arr (elems : List Json) : Json
  | obj (fields : List (String × Json)) : Json

/-- Field lookup in a serialized JSON object, as serde does when
deserializing a struct: the value of the first field with the given
name, if any. -/
def getField (fields : List (String × Json)) (k : String) : Option Json :=
  (fields.find? (fun p => p.1 = k)).map (fun p => p.2)

/-- The `Action` enum from `src/Source/Fn/Job.rs`: a read request with a file
path, or a write request with a file path and content. -/
inductive Action where
  | Read (Path : String) : Action
  | Write (Path : String) (Content : String) : Action
deriving DecidableEq

/-- The `ActionResult` struct from `src/Source/Fn/Job.rs`: pairs the processed
`Action` with its outcome, a `Result<String, String>` embedded as
`Except String String` (`Except.ok` is Rust `Ok`, `Except.error` is
Rust `Err`). -/
structure ActionResult where
  Action : Action
  Result : Except String String

/-- Serialization of `Action` as derived by serde: an externally tagged
enum, each struct variant becoming a single-entry object whose key is
the variant name and whose value is the object of its fields in
declaration order. -/
def Action.serialize : Action → Json
  | .Read p => .obj [("Read", .obj [("Path", .str p)])]
  | .Write p c => .obj [("Write", .obj [("Path", .str p), ("Content", .str c)])]

/-- Deserialization of `Action` as derived by serde: expects a
single-entry object whose key names the variant, and reads the declared
string fields out of the value. -/
def Action.deserialize : Json → Option Action
  | .obj [(tag, v)] =>
    if tag = "Read" then
      match v with
      | .obj fs =>
        match getField fs "Path" with
        | some (.str p) => some (.Read p)
        | _ => none
      | _ => none
    else if tag = "Write" then
      match v with
      | .obj fs =>
        match getField fs "Path", getField fs "Content" with
        | some (.str p), some (.str c) => some (.Write p c)
        | _, _ => none
      | _ => none
    else none
  | _ => none

/-- Serialization of `Result<String, String>` as serde derives it for
`core::result::Result`: an externally tagged enum with variants `Ok`
and `Err`. -/
def serializeOutcome : Except String String → Json
  | .ok s => .obj [("Ok", .str s)]
  | .error e => .obj [("Err", .str e)]

/-- Deserialization of `Result<String, String>`. -/
def deserializeOutcome : Json → Option (Except String String)
  | .obj [(tag, v)] =>
    if tag = "Ok" then
      match v with
      | .str s => some (.ok s)
      | _ => none
    else if tag = "Err" then
      match v with
      | .str e => some (.error e)
      | _ => none
    else none
  | _ => none

/-- Serialization of `ActionResult` as derived by serde: an object with
the two fields in declaration order. -/
def ActionResult.serialize (r : ActionResult) : Json :=
  .obj [("Action", r.Action.serialize), ("Result", serializeOutcome r.Result)]

/-- Deserialization of `ActionResult`: reads the `Action` and `Result`
fields out of the object. -/
def ActionResult.deserialize : Json → Option ActionResult
  | .obj fs =>
    match getField fs "Action", getField fs "Result" with
    | some ja, some jr =>
      match Action.deserialize ja, deserializeOutcome jr with
      | some a, some r => some ⟨a, r⟩
      | _, _ => none
    | _, _ => none
  | _ => none

/-!  The `Work` queue of `src/Source/Fn/Job.rs`.

The queue is an `Arc<Mutex<Vec<Action>>>`; both operations hold the
lock for their full duration, so every interleaving of calls is a
sequence of atomic operations on the `Vec`.  The embedding is therefore
the `Vec<Action>` itself, a `List Action` in push order (head of the
vector first, most recently pushed element last), with each operation a
pure state transformer.  -/

/-- The `Work` queue state: the guarded `Vec<Action>`, in push order. -/
abbrev Work : Type := List Action

/-- Rust `Work::Begin`: a new queue with an empty `Vec`. -/
def Work.Begin : Work := []

/-- Rust `Work::Assign`: `self.Queue.lock().await.push(Action)` — appends
the action at the end of the vector. -/
def Work.Assign (w : Work) (a : Action) : Work := w ++ [a]

/-- Rust `Work::Execute`: `self.Queue.lock().await.pop()` — removes and
returns the last element of the vector, or `none` when it is empty.
Returned as the pair (popped element, remaining queue). -/
def Work.Execute (w : Work) : Option Action × Work :=
  match w.getLast? with
  | none => (none, w)
  | some a => (some a, w.dropLast)

/-- Run `n` consecutive `Execute` calls, collecting each returned
`Option Action` and the final queue state. -/
def Work.ExecuteN : Work → Nat → List (Option Action) × Work
  | w, 0 => ([], w)
  | w, n + 1 =>
    let p := w.Execute
    let q := Work.ExecuteN p.2 n
    (p.1 :: q.1, q.2)

/-- Run a sequence of `Assign` calls in order. -/
def Work.AssignAll (w : Work) (l : List Action) : Work :=
  l.foldl Work.Assign w

/-- One lock-atomic operation on a `Work` queue: an `Assign` of a given
action, or an `Execute`.  The mutex serializes all concurrent callers,
so any concurrent history of the queue is a `List Op`. -/
inductive Op where
  | assign (a : Action) : Op
  | execute : Op

/-- Number of `Assign` calls in a history. -/
def countAssigns : List Op → Nat
  | [] => 0
  | Op.assign _ :: rest => countAssigns rest + 1
  | Op.execute :: rest => countAssigns rest

/-- Run a history of operations on a queue, returning the final queue
state and the number of successful `Execute` calls (those that returned
an action). -/
def runOps : Work → List Op → Work × Nat
  | w, [] => (w, 0)
  | w, Op.assign a :: rest => runOps (w.Assign a) rest
  | w, Op.execute :: rest =>
    let p := w.Execute
    let q := runOps p.2 rest
    (q.1, (if p.1.isSome then 1 else 0) + q.2)

/-!  The dispatch loop `Fn` of `src/Source/Fn/Job.rs`.

`Fn` loops: it pops an action off the queue; if it got one it runs the
worker's `Receive` on it and sends the `ActionResult` on the unbounded
`Approval` channel, breaking out of the loop exactly when the send
fails (which `tokio::sync::mpsc::UnboundedSender::send` does exactly
when the receiver has been dropped); if the queue was empty it sleeps
100 ms and loops again.  The embedding models the worker by its
input/output behaviour `Action → ActionResult`, the channel by whether
its receiver is still alive, and one loop iteration as a step
function; the sleep has no observable effect on the loop state.  -/

/-- The `Approval` channel endpoint: `send` succeeds exactly while the
receiver end has not been dropped. -/
structure Channel where
  ReceiverAlive : Bool

/-- Rust `UnboundedSender::send`: `true` means the send succeeded (`is_err()`
is `false`), `false` means the receiver was dropped. -/
def Channel.send (c : Channel) (_ : ActionResult) : Bool :=
  c.ReceiverAlive

/-- Outcome of one iteration of the `Fn` loop body: continue looping
with the new queue state, or break out of the loop (the loop's terminal
state). -/
inductive LoopStep where
  | Continue (w : Work) : LoopStep
  | Stopped : LoopStep

/-- One iteration of the `Fn` loop body: pop the queue; on an action,
run `Site.Receive` and send the result on `Approval`, breaking exactly
when the send fails; on an empty queue, sleep 100 ms and continue. -/
def FnStep (Site : Action → ActionResult) (Approval : Channel) (w : Work) :
    LoopStep :=
  match w.Execute with
  | (some a, w1) =>
    if Approval.send (Site a) then .Continue w1 else .Stopped
  | (none, w1) => .Continue w1

/-- The `Fn` loop, run for at most `fuel` iterations: returns whether
the loop broke (reached its terminal state) within those iterations,
and the queue state when it stopped iterating. -/
def FnRun (Site : Action → ActionResult) (Approval : Channel) :
    Nat → Work → Bool × Work
  | 0, w => (false, w)
  | fuel + 1, w =>
    match FnStep Site Approval w with
    | .Stopped => (true, w)
    | .Continue w1 => FnRun Site Approval fuel w1

/-!  The function registry of
`src/Source/Struct/Sequence/Plan/Formality.rs`.

The registry holds two `DashMap`s keyed by operation name.  A `DashMap`
is embedded as an association list together with lookup (`get` /
`contains_key`) and replace-on-insert (`insert`) operations; each
registry operation takes and returns the whole registry state (a
`&mut self` receiver in the source).  The bound callables are
`Box<dyn Fn(Vec<serde_json::Value>) -> Pin<Box<dyn Future<Output =
Result<serde_json::Value, ActionError>>>>`; an asynchronous callable is
embedded by its input/output behaviour, and the pin-boxing wrapper
`move |Argument| Box::pin(Function(Argument))` built by `Add` is the
behaviour-preserving `Erase`.  -/

/-- The `ActionError` type (external opaque error classification, from the crate
`Echo` used by the registry): embedded as an opaque carrier of a
message, since this core never inspects it. -/
structure ActionError where
  Message : String
deriving DecidableEq

/-- The `Signature` type (the external type
`crate::Struct::Sequence::Action::Signature::Struct`, an external
collaborator opaque to this core beyond its `Name` field): declares an
operation's name and expected shape. -/
structure Signature where
  Name : String
  Shape : String
deriving DecidableEq

/-- A callable as passed to `Add`: `Vec<serde_json::Value>` to an
asynchronous `Result<serde_json::Value, ActionError>`, embedded by its
input/output behaviour. -/
def Callable : Type := List Json → Except ActionError Json

/-- The type-erased wrapping `Add` performs:
`move |Argument| Box::pin(Function(Argument))` — behaviourally the
same callable behind the erased interface type. -/
def Erase (f : Callable) : Callable :=
  fun Argument => f Argument

/-- Rust `DashMap::get`: the value stored under a key, if present. -/
def mapGet {α : Type} (m : List (String × α)) (k : String) : Option α :=
  (m.find? (fun p => p.1 = k)).map (fun p => p.2)

/-- Rust `DashMap::contains_key`. -/
def mapContains {α : Type} (m : List (String × α)) (k : String) : Bool :=
  (m.find? (fun p => p.1 = k)).isSome

/-- Rust `DashMap::insert`: binds `k` to `v`, replacing any previous entry
for `k`. -/
def mapInsert {α : Type} (m : List (String × α)) (k : String) (v : α) :
    List (String × α) :=
  (k, v) :: m.filter (fun p => ¬ p.1 = k)

/-- The registry `Struct`: the two `DashMap`s, name to `Signature` and
name to type-erased callable. -/
structure Struct where
  Signature : List (String × Signature)
  Function : List (String × Callable)

/-- Rust `Struct::New`: both maps empty. -/
def Struct.New : Struct :=
  { Signature := [], Function := [] }

/-- Rust `Struct::Sign`: inserts the signature keyed by its declared name
(`self.Signature.insert(Signature.Name.clone(), Signature)`), returning
the updated registry. -/
def Struct.Sign (s : Struct) (sig : Air.Signature) : Struct :=
  { s with Signature := mapInsert s.Signature sig.Name sig }

/-- Rust `Struct::Add`: if no signature is registered under `Name`, returns
the error `format!("No signature found for function: {}", Name)` and
leaves the registry as it was; otherwise inserts the type-erased
wrapping of `Function` into the function map under `Name` and returns
ok.  The pair is (returned `Result`, registry state after the call). -/
def Struct.Add (s : Struct) (Name : String) (Function : Callable) :
    Except String Unit × Struct :=
  if ¬ mapContains s.Signature Name then
    (.error ("No signature found for function: " ++ Name), s)
  else
    (.ok (), { s with Function := mapInsert s.Function Name (Erase Function) })

/-- Rust `Struct::Remove`: `self.Function.get(Name)` — looks up and returns
the callable bound to `Name`, if any.  The receiver is `&self`; the
pair (returned value, registry state after the call) makes the absence
of mutation explicit. -/
def Struct.Remove (s : Struct) (Name : String) : Option Callable × Struct :=
  (mapGet s.Function Name, s)

/-!  Helper lemmas.  -/

/-- Running a batch of `Assign` calls appends the batch to the queue. -/
theorem Work.assignAll_eq (w : Work) (l : List Action) :
    w.AssignAll l = w ++ l := by
  induction l generalizing w with
  | nil => simp [Work.AssignAll]
  | cons a t ih =>
    show Work.AssignAll (w.Assign a) t = _
    rw [ih]
    simp [Work.Assign]

/-- Popping a queue with a last element returns that element and drops
it. -/
theorem Work.execute_concat (w : Work) (a : Action) :
    (w ++ [a]).Execute = (some a, w) := by
  simp [Work.Execute, List.getLast?_concat, List.dropLast_concat]

/-- Draining a queue of length `n` with `n` pops yields all its
elements, most recently pushed first, and empties it. -/
theorem Work.executeN_all (w : Work) :
    w.ExecuteN w.length = (w.reverse.map some, Work.Begin) := by
  induction w using List.reverseRecOn with
  | nil => rfl
  | append_singleton l a ih =>
    simp [Work.ExecuteN, Work.execute_concat, ih, Work.Begin]

/-- A single pop reduces the length by one exactly when it returns an
action. -/
theorem Work.execute_count (w : Work) :
    (if (w.Execute).1.isSome then 1 else 0) + ((w.Execute).2).length
      = w.length := by
  induction w using List.reverseRecOn with
  | nil => rfl
  | append_singleton l a _ =>
    simp [Work.execute_concat]
    omega

/-- Conservation along any operation history: successful pops plus
remaining length equals pushes plus initial length. -/
theorem runOps_conservation (w : Work) (ops : List Op) :
    (runOps w ops).2 + ((runOps w ops).1).length
      = countAssigns ops + w.length := by
  induction ops generalizing w with
  | nil => simp [runOps, countAssigns]
  | cons op rest ih =>
    cases op with
    | assign a =>
      have h := ih (w.Assign a)
      simp [runOps, countAssigns, Work.Assign] at h ⊢
      omega
    | execute =>
      have hc := Work.execute_count w
      have h := ih (w.Execute).2
      cases hs : (w.Execute).1.isSome <;>
        simp [runOps, countAssigns, hs] at hc h ⊢ <;> omega

/-- The loop body breaks exactly when an action was dequeued and the
receiver of the delivery channel is gone. -/
theorem fnStep_stopped_iff (Site : Action → ActionResult) (Approval : Channel)
    (w : Work) :
    FnStep Site Approval w = LoopStep.Stopped ↔
      ((w.Execute).1.isSome = true ∧ Approval.ReceiverAlive = false) := by
  rcases hw : w.Execute with ⟨r, w1⟩
  cases r with
  | none => simp [FnStep, hw]
  | some a =>
    cases hA : Approval.ReceiverAlive <;>
      simp [FnStep, hw, Channel.send, hA]

/-- While the receiver is alive the loop never breaks, whatever the
worker returns. -/
theorem fnRun_alive (Site : Action → ActionResult) (Approval : Channel)
    (h : Approval.ReceiverAlive = true) :
    ∀ (fuel : Nat) (w : Work), (FnRun Site Approval fuel w).1 = false := by
  intro fuel
  induction fuel with
  | zero => intro w; rfl
  | succ n ih =>
    intro w
    have hs : FnStep Site Approval w ≠ LoopStep.Stopped := by
      intro hEq
      rw [fnStep_stopped_iff] at hEq
      simp [h] at hEq
    rcases hstep : FnStep Site Approval w with w1 | _
    · simp [FnRun, hstep, ih]
    · exact absurd hstep hs

/-- Looking up the key just inserted returns the inserted value. -/
theorem mapGet_insert_self {α : Type} (m : List (String × α)) (k : String)
    (v : α) :
    mapGet (mapInsert m k v) k = some v := by
  simp [mapGet, mapInsert, List.find?_cons_of_pos]

/-- The key just inserted is present. -/
theorem mapContains_insert_self {α : Type} (m : List (String × α)) (k : String)
    (v : α) :
    mapContains (mapInsert m k v) k = true := by
  simp [mapContains, mapInsert, List.find?_cons_of_pos]

/-!  The claims.  -/

/-- C1: for every sequence of `Assign(a1), …, Assign(an)` on one `Work`
queue starting empty, with no interleaved `Execute`, a subsequent run of
`n` `Execute` calls returns `an, a(n-1), …, a1` — each `Execute` removes
and returns the most recently appended action (strict LIFO) — and
leaves the queue empty. -/
theorem C1_queue_is_strict_lifo (l : List Action) :
    (Work.Begin.AssignAll l).ExecuteN l.length
      = (l.reverse.map some, Work.Begin) := by
  have h : Work.Begin.AssignAll l = l := by
    rw [Work.assignAll_eq]
    simp [Work.Begin]
  rw [h]
  exact Work.executeN_all l

/-- C2: the dispatch loop `Fn` terminates if and only if a send on the
delivery channel fails (its receiver was dropped): one iteration breaks
exactly when an action was dequeued and the receiver is gone, whether
the iteration breaks is independent of the worker's outcome, and while
the receiver is alive the loop never terminates, for any worker
behaviour and any number of iterations. -/
theorem C2_loop_stops_iff_send_fails :
    (∀ (Site : Action → ActionResult) (Approval : Channel) (w : Work),
        FnStep Site Approval w = LoopStep.Stopped ↔
          ((w.Execute).1.isSome = true ∧ Approval.ReceiverAlive = false)) ∧
    (∀ (SiteA SiteB : Action → ActionResult) (Approval : Channel) (w : Work),
        (FnStep SiteA Approval w = LoopStep.Stopped ↔
          FnStep SiteB Approval w = LoopStep.Stopped)) ∧
    (∀ (Site : Action → ActionResult) (Approval : Channel) (fuel : Nat)
        (w : Work),
        Approval.ReceiverAlive = true →
          (FnRun Site Approval fuel w).1 = false) ∧
    (∀ (Site : Action → ActionResult) (Approval : Channel) (fuel : Nat)
        (w : Work),
        (FnRun Site Approval fuel w).1 = true →
          Approval.ReceiverAlive = false) := by
  refine ⟨fnStep_stopped_iff, ?_, ?_, ?_⟩
  · intro SiteA SiteB Approval w
    rw [fnStep_stopped_iff, fnStep_stopped_iff]
  · intro Site Approval fuel w h
    exact fnRun_alive Site Approval h fuel w
  · intro Site Approval fuel w h
    cases hA : Approval.ReceiverAlive
    · rfl
    · rw [fnRun_alive Site Approval hA fuel w] at h
      exact absurd h (by simp)

/-- C2 witness: a worker that always succeeds, a live receiver, a
nonempty queue: after three iterations the loop has not terminated. -/
theorem C2_loop_stops_iff_send_fails_witness :
    (FnRun (fun a => ⟨a, Except.ok "done"⟩) ⟨true⟩ 3 [Action.Read "x"]).1
      = false :=
  C2_loop_stops_iff_send_fails.2.2.1 (fun a => ⟨a, Except.ok "done"⟩) ⟨true⟩ 3
    [Action.Read "x"] rfl

/-- C3: binding an implementation under a name with no registered
signature returns the descriptive error
`"No signature found for function: " ++ N` and leaves the registry
(both maps) unchanged. -/
theorem C3_add_without_signature_fails (s : Struct) (N : String)
    (f : Callable) (h : mapContains s.Signature N = false) :
    s.Add N f = (Except.error ("No signature found for function: " ++ N), s) := by
  simp [Struct.Add, h]

/-- C3 witness: on the fresh registry, binding under the never-signed
name `"Foo"` fails with the descriptive error and changes nothing. -/
theorem C3_add_without_signature_fails_witness :
    Struct.New.Add "Foo" (fun _ => Except.ok Json.null)
      = (Except.error ("No signature found for function: " ++ "Foo"),
          Struct.New) :=
  C3_add_without_signature_fails Struct.New "Foo"
    (fun _ => Except.ok Json.null) rfl

/-- C4: registry lookup `Remove` returns exactly the callable currently
bound in the function map (or nothing), leaves the registry entirely
unchanged, and a second `Remove` of the same name immediately after
returns the same result: it is a lookup, not a deletion. -/
theorem C4_remove_is_pure_lookup (s : Struct) (N : String) :
    (s.Remove N).2 = s ∧
    ((s.Remove N).2.Remove N).1 = (s.Remove N).1 ∧
    (s.Remove N).1 = mapGet s.Function N :=
  ⟨rfl, rfl, rfl⟩

/-- C5: after `Sign` registers a signature with declared name `N`,
`Add(N, f)` succeeds, and `Remove(N)` immediately afterwards returns
the type-erased wrapping of `f`. -/
theorem C5_add_after_sign_succeeds (s : Struct) (sig : Air.Signature)
    (f : Callable) :
    ((s.Sign sig).Add sig.Name f).1 = Except.ok () ∧
    ((((s.Sign sig).Add sig.Name f).2).Remove sig.Name).1 = some (Erase f) := by
  have hc : mapContains (s.Sign sig).Signature sig.Name = true := by
    simp [Struct.Sign, mapContains_insert_self]
  constructor
  · simp [Struct.Add, hc]
  · simp [Struct.Add, hc, Struct.Remove, mapGet_insert_self]

/-- C9: when a signature exists for `N`, a second `Add(N, g)` after a
successful `Add(N, f)` also succeeds and replaces the bound callable:
`Remove(N)` then returns the wrapping of `g`. -/
theorem C9_add_overwrites (s : Struct) (N : String) (f g : Callable)
    (h : mapContains s.Signature N = true) :
    (s.Add N f).1 = Except.ok () ∧
    (((s.Add N f).2).Add N g).1 = Except.ok () ∧
    (((((s.Add N f).2).Add N g).2).Remove N).1 = some (Erase g) := by
  refine ⟨?_, ?_, ?_⟩ <;>
    simp [Struct.Add, h, Struct.Remove, mapGet_insert_self]

/-- C9 witness: a registry with signature `"f"` accepts two successive
bindings under `"f"` and the lookup returns the wrapping of the second. -/
theorem C9_add_overwrites_witness :
    mapContains ((Struct.New.Sign ⟨"f", "shape"⟩).Signature) "f" = true ∧
    ((((((Struct.New.Sign ⟨"f", "shape"⟩).Add "f"
          (fun _ => Except.ok Json.null)).2).Add "f"
          (fun _ => Except.error ⟨"boom"⟩)).2).Remove "f").1
      = some (Erase (fun _ => Except.error ⟨"boom"⟩)) :=
  ⟨rfl,
    (C9_add_overwrites (Struct.New.Sign ⟨"f", "shape"⟩) "f"
      (fun _ => Except.ok Json.null) (fun _ => Except.error ⟨"boom"⟩)
      rfl).2.2⟩

/-- C10: the two registry maps are updated independently — `Add`
(whether it fails or succeeds) never changes the signature map, and
`Sign` never changes the function map, so `Sign` never unbinds or
alters an existing callable. -/
theorem C10_maps_are_independent (s : Struct) (N : String) (f : Callable)
    (sig : Air.Signature) :
    ((s.Add N f).2).Signature = s.Signature ∧
    (s.Sign sig).Function = s.Function := by
  constructor
  · by_cases h : mapContains s.Signature N = true <;> simp [Struct.Add, h]
  · rfl

/-- C6: `Execute` on an empty queue returns `none` — the "no action
available" outcome — and leaves the queue empty. -/
theorem C6_execute_on_empty (w : Work) (h : w = Work.Begin) :
    w.Execute = (none, Work.Begin) := by
  subst h
  rfl

/-- C6 witness: the fresh empty queue. -/
theorem C6_execute_on_empty_witness :
    Work.Execute Work.Begin = (none, Work.Begin) :=
  C6_execute_on_empty Work.Begin rfl

/-- C7: serializing and then deserializing any `Action` or any
`ActionResult` yields the original value (round-trip law). -/
theorem C7_serialization_roundtrip :
    (∀ a : Action, Action.deserialize a.serialize = some a) ∧
    (∀ r : ActionResult, ActionResult.deserialize r.serialize = some r) := by
  refine ⟨fun a => ?_, fun r => ?_⟩
  · cases a <;> rfl
  · obtain ⟨a, res⟩ := r
    cases a <;> cases res <;> rfl

/-- C8: over any serialized history of `Assign` and `Execute`
operations on one queue, no action is lost or delivered twice: at every
point, completed `Assign` calls plus the initial length equal
successful `Execute` calls plus the current length, and once the queue
is drained to empty, successful dequeues equal enqueues. -/
theorem C8_no_action_lost_or_duplicated :
    (∀ (w : Work) (ops : List Op),
        (runOps w ops).2 + ((runOps w ops).1).length
          = countAssigns ops + w.length) ∧
    (∀ ops : List Op, (runOps Work.Begin ops).1 = Work.Begin →
        (runOps Work.Begin ops).2 = countAssigns ops) := by
  refine ⟨runOps_conservation, fun ops h => ?_⟩
  have hm := runOps_conservation Work.Begin ops
  rw [h] at hm
  simpa [Work.Begin] using hm

/-- C8 witness: one enqueue followed by one dequeue drains the queue;
the successful dequeue count equals the enqueue count. -/
theorem C8_no_action_lost_or_duplicated_witness :
    (runOps Work.Begin [Op.assign (Action.Read "x"), Op.execute]).2
      = countAssigns [Op.assign (Action.Read "x"), Op.execute] :=
  C8_no_action_lost_or_duplicated.2
    [Op.assign (Action.Read "x"), Op.execute] (by decide)

end Air
